import Mathlib

/-!
Verification of the text layout engine in
`src/core/embed/rust/src/ui/component/text.rs`.

The Rust code is shallowly embedded: byte slices become `List Nat` (byte
values), `i32` pixel arithmetic becomes `Int` arithmetic (Rust `/` on `i32`
truncates toward zero, mirrored by `Int.tdiv`), the external `Font`
capability becomes a structure holding its two pure query functions, and the
`LayoutSink` visitor becomes an explicit list of emitted `Event`s.  The
orchestrator loop of `layout_text`, whose Rust form is a `while` loop with
no syntactic termination argument, is embedded with an explicit fuel
parameter; `none` models a run that does not finish within the given fuel.
-/

namespace TrezorText

/-- External geometry collaborator: `Point { x, y }`. -/
structure Point where
  x : Int
  y : Int
deriving DecidableEq

/-- External geometry collaborator: `Offset { x, y }`. -/
structure Offset where
  x : Int
  y : Int
deriving DecidableEq

/-- External geometry collaborator: `Rect { x0, y0, x1, y1 }`;
`top_left()` is `(x0, y0)`. -/
structure Rect where
  x0 : Int
  y0 : Int
  x1 : Int
  y1 : Int
deriving DecidableEq

/-- External font capability: `text_width` is only ever called on a single
byte by the layout code (`text_width(&[ch])`), so it is embedded as a
per-byte width query.  `line_height` is a constant of the font. -/
structure Font where
  text_width : Nat → Int
  line_height : Int

/-- `enum LineBreaking`. -/
inductive LineBreaking where
  | breakAtWhitespace
  | breakWordsAndInsertHyphen
deriving DecidableEq

/-- `enum PageBreaking`. -/
inductive PageBreaking where
  | cut
  | cutAndInsertEllipsis
deriving DecidableEq

/-- `struct TextLayout` (colors are opaque external values, embedded as
`Nat` tags). -/
structure TextLayout where
  bounds : Rect
  background_color : Nat
  text_color : Nat
  text_font : Font
  line_breaking : LineBreaking
  hyphen_font : Font
  hyphen_color : Nat
  page_breaking : PageBreaking
  ellipsis_font : Font
  ellipsis_color : Nat

/-- `struct Span`. -/
structure Span where
  length : Nat
  skip_next_chars : Nat
  advance : Offset
  insert_hyphen_before_line_break : Bool
deriving DecidableEq

/-- `is_whitespace` from `Span::fit_horizontally` (space, LF, CR). -/
def is_whitespace (ch : Nat) : Bool :=
  ch = 32 || ch = 10 || ch = 13

/-- `matches!(breaking, LineBreaking::BreakWordsAndInsertHyphen)`. -/
def breaksWords (b : LineBreaking) : Bool :=
  match b with
  | LineBreaking.breakWordsAndInsertHyphen => true
  | LineBreaking.breakAtWhitespace => false

/-- The character scan loop of `Span::fit_horizontally`.  Arguments mirror
the Rust loop state: remaining characters, current index `i`, the `line`
break candidate, accumulated `span_width`, and `found_any_whitespace`.
The `[]` case is the loop falling through: the whole text fits. -/
def fitScan (text_font : Font) (max_width hyphen_width : Int) (breaking : LineBreaking) :
    List Nat → Nat → Span → Int → Bool → Span
  | [], i, _line, span_width, _found =>
    ⟨i, 0, ⟨span_width, 0⟩, false⟩
  | ch :: rest, i, line, span_width, found_any_whitespace =>
    let char_width := text_font.text_width ch
    if is_whitespace ch then
      let line1 : Span :=
        ⟨i, 1,
          ⟨span_width,
            if ch = 13 then Int.tdiv text_font.line_height 2 else line.advance.y⟩,
          false⟩
      if ch = 10 || ch = 13 then
        line1
      else
        fitScan text_font max_width hyphen_width breaking rest (i + 1) line1
          (span_width + char_width) true
    else if max_width < span_width + char_width then
      line
    else
      let have_space_for_break :=
        span_width + char_width + hyphen_width ≤ max_width
      let can_break_word := breaksWords breaking || !found_any_whitespace
      let line2 : Span :=
        if have_space_for_break && can_break_word then
          ⟨i + 1, 0, ⟨span_width + char_width, line.advance.y⟩, true⟩
        else line
      fitScan text_font max_width hyphen_width breaking rest (i + 1) line2
        (span_width + char_width) found_any_whitespace

/-- `Span::fit_horizontally`.  The initial `line` candidate is the
zero-length forced break with a full line-height vertical advance. -/
def fit_horizontally (text : List Nat) (max_width : Int) (text_font hyphen_font : Font)
    (breaking : LineBreaking) : Span :=
  fitScan text_font max_width (hyphen_font.text_width 45) breaking text 0
    ⟨0, 0, ⟨0, text_font.line_height⟩, false⟩ 0 false

/-- One `LayoutSink` call, reified as data. -/
inductive Event where
  | text (cursor : Point) (bytes : List Nat)
  | hyphen (cursor : Point)
  | ellipsis (cursor : Point)
  | line_break (cursor : Point)
  | out_of_bounds
deriving DecidableEq

/-- Outcome of one iteration of the `layout_text` `while` loop:
either the loop returns `OutOfBounds` (`oob`) or it continues (`cont`),
in both cases with the new remaining text, the new cursor and the sink
events emitted during the iteration. -/
inductive StepOut where
  | oob (remaining : List Nat) (cursor : Point) (events : List Event)
  | cont (remaining : List Nat) (cursor : Point) (events : List Event)
deriving DecidableEq

def StepOut.events : StepOut → List Event
  | StepOut.oob _ _ ev => ev
  | StepOut.cont _ _ ev => ev

def StepOut.isOob : StepOut → Bool
  | StepOut.oob _ _ _ => true
  | StepOut.cont _ _ _ => false

/-- One iteration of the body of `TextLayout::layout_text` (the code
executed for a non-empty `remaining_text`). -/
def layoutTextStep (l : TextLayout) (remaining : List Nat) (cursor : Point) : StepOut :=
  let span := fit_horizontally remaining (l.bounds.x1 - cursor.x)
    l.text_font l.hyphen_font l.line_breaking
  let ev0 : List Event := [Event.text cursor (remaining.take span.length)]
  let remaining' := remaining.drop (span.length + span.skip_next_chars)
  let cursor1 : Point := ⟨cursor.x + span.advance.x, cursor.y⟩
  if 0 < span.advance.y then
    let evH :=
      if span.insert_hyphen_before_line_break then ev0 ++ [Event.hyphen cursor1]
      else ev0
    if l.bounds.y1 < cursor1.y + span.advance.y then
      let evE :=
        if remaining' = [] then evH
        else if (match l.page_breaking with
                 | PageBreaking.cutAndInsertEllipsis => true
                 | PageBreaking.cut => false)
                && !span.insert_hyphen_before_line_break then
          evH ++ [Event.ellipsis cursor1]
        else evH
      StepOut.oob remaining' cursor1 (evE ++ [Event.out_of_bounds])
    else
      let cursor2 : Point := ⟨l.bounds.x0, cursor1.y + span.advance.y⟩
      StepOut.cont remaining' cursor2 (evH ++ [Event.line_break cursor2])
  else
    StepOut.cont remaining' cursor1 ev0

/-- Accumulated outcome of the `layout_text` loop: final remaining text,
final cursor, emitted events, and whether the loop ended by the
`OutOfBounds` return (`overflow = true`) or by the text running out. -/
structure LoopOut where
  remaining : List Nat
  cursor : Point
  events : List Event
  overflow : Bool
deriving DecidableEq

/-- The `while !remaining_text.is_empty()` loop of
`TextLayout::layout_text`, with explicit fuel (`none` = the loop did not
finish within `fuel` iterations). -/
def layoutTextLoop (l : TextLayout) : Nat → List Nat → Point → Option LoopOut
  | 0, _, _ => none
  | fuel + 1, remaining, cursor =>
    if remaining = [] then some ⟨[], cursor, [], false⟩
    else
      match layoutTextStep l remaining cursor with
      | StepOut.oob r c ev => some ⟨r, c, ev, true⟩
      | StepOut.cont r c ev =>
        (layoutTextLoop l fuel r c).map fun out =>
          ⟨out.remaining, out.cursor, ev ++ out.events, out.overflow⟩

/-- `enum LayoutFit`. -/
inductive LayoutFit where
  | fitting (processed_chars : Nat)
  | outOfBounds (processed_chars : Nat)
deriving DecidableEq

/-- `TextLayout::layout_text`: the fitting result paired with the final
cursor and the sink events.  `processed_chars` follows the Rust code:
`text.len() - remaining_text.len()` on overflow, `text.len()` on fit. -/
def layout_text (l : TextLayout) (fuel : Nat) (text : List Nat) (cursor : Point) :
    Option (LayoutFit × Point × List Event) :=
  (layoutTextLoop l fuel text cursor).map fun out =>
    (if out.overflow then LayoutFit.outOfBounds (text.length - out.remaining.length)
     else LayoutFit.fitting text.length,
     out.cursor, out.events)

/-- `enum Op`. -/
inductive Op where
  | text (bytes : List Nat)
  | color (c : Nat)
  | font (f : Font)

/-- The loop of `TextLayout::layout_op_stream`, threading the mutable
working copy of the style (`mut self`), the cursor and the running
`total_processed_chars`; it also returns the final working style. -/
def layoutOpStreamGo (fuel : Nat) :
    TextLayout → List Op → Point → Nat →
      Option (LayoutFit × Point × List Event × TextLayout)
  | l, [], cursor, total => some (LayoutFit.fitting total, cursor, [], l)
  | l, Op.color c :: rest, cursor, total =>
    layoutOpStreamGo fuel { l with text_color := c } rest cursor total
  | l, Op.font f :: rest, cursor, total =>
    layoutOpStreamGo fuel { l with text_font := f } rest cursor total
  | l, Op.text t :: rest, cursor, total =>
    match layout_text l fuel t cursor with
    | none => none
    | some (LayoutFit.fitting n, c', ev) =>
      (layoutOpStreamGo fuel l rest c' (total + n)).map fun r =>
        (r.1, r.2.1, ev ++ r.2.2.1, r.2.2.2)
    | some (LayoutFit.outOfBounds n, c', ev) =>
      some (LayoutFit.outOfBounds (total + n), c', ev, l)

/-- `TextLayout::layout_op_stream` (starts with `total_processed_chars = 0`). -/
def layout_op_stream (l : TextLayout) (fuel : Nat) (ops : List Op) (cursor : Point) :
    Option (LayoutFit × Point × List Event × TextLayout) :=
  layoutOpStreamGo fuel l ops cursor 0

/-- `enum Token`. -/
inductive Token where
  | literal (bytes : List Nat)
  | argument (bytes : List Nat)
deriving DecidableEq

/-- The inner scan of `Tokenizer::next` for an argument token: consume
bytes until the first `}` (byte 125), returning the bytes before it and
the rest after it, or `none` when the input ends first. -/
def splitAtClose : List Nat → Option (List Nat × List Nat)
  | [] => none
  | c :: rest =>
    if c = 125 then some ([], rest)
    else
      match splitAtClose rest with
      | some (a, r) => some (c :: a, r)
      | none => none

/-- The full token sequence produced by iterating `Tokenizer::next` on the
input.  A `{` (byte 123) opens an argument scanned by `splitAtClose`; an
unterminated argument yields no token and ends the iteration.  Any other
byte opens a literal extending to the next `{` (kept for the next token via
the Rust `peek`) or to the end of input. -/
def tokenize : List Nat → List Token
  | [] => []
  | b :: rest =>
    if b = 123 then
      match h : splitAtClose rest with
      | some (a, r) => Token.argument a :: tokenize r
      | none => []
    else
      Token.literal (b :: rest.takeWhile (fun c => c != 123)) ::
        tokenize (rest.dropWhile (fun c => c != 123))
termination_by input => input.length
decreasing_by
  · have hlt : ∀ (l a r : List Nat), splitAtClose l = some (a, r) → r.length < l.length := by
      intro l
      induction l with
      | nil => intro a r hs; simp [splitAtClose] at hs
      | cons c rest ih =>
        intro a r hs
        by_cases hc : c = 125
        · simp only [splitAtClose, hc, if_true, ite_true, Option.some.injEq,
            Prod.mk.injEq] at hs
          simp only [← hs.2, List.length_cons]
          omega
        · simp only [splitAtClose, hc, if_false, ite_false] at hs
          cases hrec : splitAtClose rest with
          | none => rw [hrec] at hs; simp at hs
          | some p =>
            rw [hrec] at hs
            cases p with
            | mk a' r' =>
              simp only [Option.some.injEq, Prod.mk.injEq] at hs
              have := ih a' r' hrec
              simp only [← hs.2, List.length_cons]
              omega
    simp only [List.length_cons]
    exact Nat.lt_succ_of_lt (hlt rest a r h)
  · have hle : ∀ (p : Nat → Bool) (l : List Nat), (l.dropWhile p).length ≤ l.length := by
      intro p l
      induction l with
      | nil => simp [List.dropWhile]
      | cons c rest ih =>
        by_cases hc : p c = true
        · simp only [List.dropWhile, hc, List.length_cons]
          omega
        · simp [List.dropWhile, hc]
    simp only [List.length_cons]
    exact Nat.lt_succ_of_le (hle _ _)

/-- The closure `skipped` state of `Op::skip_n_text_bytes`, threaded
explicitly through the op list. -/
def skipGo (skip_bytes : Nat) : List Op → Nat → List Op
  | [], _ => []
  | Op.text t :: rest, skipped =>
    if skipped < skip_bytes then
      let skipped' := skipped + t.length
      if skip_bytes < skipped' then
        let leave_bytes := skipped' - skip_bytes
        Op.text (t.take (t.length - leave_bytes)) :: skipGo skip_bytes rest skipped'
      else skipGo skip_bytes rest skipped'
    else Op.text t :: skipGo skip_bytes rest skipped
  | op :: rest, skipped => op :: skipGo skip_bytes rest skipped

/-- `Op::skip_n_text_bytes` (the `filter_map` with the captured `skipped`
counter starting at 0; `saturating_add` never saturates over `Nat`). -/
def skip_n_text_bytes (ops : List Op) (skip_bytes : Nat) : List Op :=
  skipGo skip_bytes ops 0

/-- `Text::MAX_ARGUMENTS`. -/
def MAX_ARGUMENTS : Nat := 6

/-- `heapless::LinearMap::insert`: replace the value when the key is
present, append when there is spare capacity, and report an error
(`none`) when the map is full. -/
def lmInsert (cap : Nat) (m : List (List Nat × List Nat)) (k v : List Nat) :
    Option (List (List Nat × List Nat)) :=
  if m.any (fun p => p.1 == k) then
    some (m.map fun p => if p.1 == k then (p.1, v) else p)
  else if m.length < cap then some (m ++ [(k, v)])
  else none

/-- `struct Text` (the façade): stored layout configuration, format string
and argument table. -/
structure TextFacade where
  layout : TextLayout
  format : List Nat
  args : List (List Nat × List Nat)

/-- `Text::with`: insert into the argument table; a full map is silently
ignored. -/
def TextFacade.withArg (t : TextFacade) (k v : List Nat) : TextFacade :=
  match lmInsert MAX_ARGUMENTS t.args k v with
  | some m => { t with args := m }
  | none => t

/-- External theme constant `theme::FONT_NORMAL` (modelled as a fixed
sample font; the layout code treats fonts as opaque). -/
def FONT_NORMAL : Font := ⟨fun _ => 8, 10⟩

/-- External theme constant `theme::FONT_BOLD`. -/
def FONT_BOLD : Font := ⟨fun _ => 9, 20⟩

/-- External theme constant `theme::FONT_MONO`. -/
def FONT_MONO : Font := ⟨fun _ => 7, 30⟩

/-- The resolver closure of `Text::layout_content`: literals pass through
as text, the names `mono` / `bold` / `normal` become font directives, any
other name is looked up in the argument table (missing names yield no op). -/
def resolveToken (t : TextFacade) : Token → Option Op
  | Token.literal l => some (Op.text l)
  | Token.argument a =>
    if a = [109, 111, 110, 111] then some (Op.font FONT_MONO)
    else if a = [98, 111, 108, 100] then some (Op.font FONT_BOLD)
    else if a = [110, 111, 114, 109, 97, 108] then some (Op.font FONT_NORMAL)
    else (t.args.find? fun p => p.1 == a).map fun p => Op.text p.2

/-- `TextLayout::initial_cursor`. -/
def initial_cursor (l : TextLayout) : Point :=
  ⟨l.bounds.x0, l.bounds.y0 + l.text_font.line_height⟩

/-- `Text::layout_content` / `TextLayout::layout_formatted`: tokenize the
format, resolve tokens to ops, and lay the op stream out starting from the
initial cursor, on a by-value copy of the stored layout. -/
def layout_content (t : TextFacade) (fuel : Nat) :
    Option (LayoutFit × Point × List Event × TextLayout) :=
  layout_op_stream t.layout fuel ((tokenize t.format).filterMap (resolveToken t))
    (initial_cursor t.layout)

/-- `Text::paint` at the façade level: runs one pass and hands back the
façade the caller keeps (Rust takes `&mut self` but only reads it; the
pass works on `self.layout.clone()`). -/
def paint (t : TextFacade) (fuel : Nat) :
    (Option (LayoutFit × Point × List Event × TextLayout)) × TextFacade :=
  (layout_content t fuel, t)

/-- Accumulated pixel width of a byte run under a font (sum of the
per-character widths the scan loop adds up). -/
def wsum (f : Font) (l : List Nat) : Int :=
  (l.map f.text_width).sum

/-- A concrete layout configuration used to instantiate theorems:
a 40 x 15 box, normal font, whitespace breaking, cut-and-ellipsis. -/
def sampleLayout : TextLayout :=
  ⟨⟨0, 0, 40, 15⟩, 0, 1, FONT_NORMAL, LineBreaking.breakAtWhitespace,
    FONT_NORMAL, 2, PageBreaking.cutAndInsertEllipsis, FONT_NORMAL, 2⟩

/-- A layout whose box (5 px wide) is narrower than every glyph (8 px):
the span fitter can only produce zero-progress forced breaks. -/
def narrowLayout : TextLayout :=
  ⟨⟨0, 0, 5, 100⟩, 0, 1, FONT_NORMAL, LineBreaking.breakAtWhitespace,
    FONT_NORMAL, 2, PageBreaking.cutAndInsertEllipsis, FONT_NORMAL, 2⟩

/-- The narrow layout with a degenerate font whose line height is 0. -/
def zeroHeightLayout : TextLayout :=
  ⟨⟨0, 0, 5, 100⟩, 0, 1, ⟨fun _ => 8, 0⟩, LineBreaking.breakAtWhitespace,
    ⟨fun _ => 8, 0⟩, 2, PageBreaking.cutAndInsertEllipsis, ⟨fun _ => 8, 0⟩, 2⟩

/-- A façade whose argument table is at full capacity (6 distinct keys). -/
def sixArgsFacade : TextFacade :=
  ⟨sampleLayout, [],
    [([1], [10]), ([2], [10]), ([3], [10]), ([4], [10]), ([5], [10]), ([6], [10])]⟩

/-- A façade whose format string is exactly the directive `\x7bbold\x7d`. -/
def boldFacade : TextFacade :=
  ⟨sampleLayout, [123, 98, 111, 108, 100, 125], []⟩

/-- Recognizer for the ellipsis sink event. -/
def isEllipsisEv : Event → Bool
  | Event.ellipsis _ => true
  | _ => false

theorem splitAtClose_eq_none {l : List Nat} (h : ¬ 125 ∈ l) : splitAtClose l = none := by
  induction l with
  | nil => rfl
  | cons c rest ih =>
    have hc : ¬ c = 125 := fun hc => h (hc ▸ List.mem_cons_self c rest)
    have hr : ¬ 125 ∈ rest := fun hr => h (List.mem_cons_of_mem c hr)
    simp [splitAtClose, hc, ih hr]

/-- C10: `Op::skip_n_text_bytes` with `skip_bytes = 0` is the identity on
every op sequence: all ops, text and non-text, pass through unchanged and
in order. -/
theorem skip_n_text_bytes_zero_id (ops : List Op) : skip_n_text_bytes ops 0 = ops := by
  have h : ∀ (l : List Op) (s : Nat), skipGo 0 l s = l := by
    intro l
    induction l with
    | nil => intro s; rfl
    | cons op rest ih =>
      intro s
      cases op with
      | text t => simp [skipGo, ih]
      | color c => simp [skipGo, ih]
      | font f => simp [skipGo, ih]
  exact h ops 0

/-- C1: evaluation of `Op::skip_n_text_bytes` at the failing input
`ops = [Text "ab"], skip_bytes = 1`.  The code keeps the one-byte prefix
`"a"` — exactly the byte that was supposed to be skipped — instead of the
remaining suffix `"b"` that the spec (and the function name) demand. -/
theorem skip_n_text_bytes_keeps_skipped_prefix :
    skip_n_text_bytes [Op.text [97, 98]] 1 = [Op.text [97]] := rfl

/-- C8: inserting a 7th distinct key into a full 6-entry argument table via
`Text::with` leaves the table unchanged (still exactly 6 entries); the
builder call still returns a façade value, with no error. -/
theorem with_on_full_table (t : TextFacade) (k v : List Nat)
    (hlen : t.args.length = 6) (hk : ∀ p ∈ t.args, p.1 ≠ k) :
    (t.withArg k v).args = t.args ∧ (t.withArg k v).args.length = 6 := by
  have hany : t.args.any (fun p => p.1 == k) = false := by
    simp only [List.any_eq_false, beq_iff_eq]
    intro p hp
    exact hk p hp
  have hfull : ¬ t.args.length < MAX_ARGUMENTS := by
    rw [hlen]; decide
  have hnone : lmInsert MAX_ARGUMENTS t.args k v = none := by
    unfold lmInsert
    rw [hany]
    simp [hfull]
  have ht : t.withArg k v = t := by
    unfold TextFacade.withArg
    rw [hnone]
  rw [ht]
  exact ⟨rfl, hlen⟩

/-- Witness for C8 at a concrete full table. -/
theorem with_on_full_table_witness :
    sixArgsFacade.args.length = 6 ∧
    ((sixArgsFacade.withArg [7] [99]).args = sixArgsFacade.args ∧
      (sixArgsFacade.withArg [7] [99]).args.length = 6) :=
  ⟨rfl, with_on_full_table sixArgsFacade [7] [99] rfl (by decide)⟩

/-- C3: the tokenizer reproduces the spec fixtures byte-for-byte, and in
general an argument fragment opened by a brace that never closes before
the end of input yields no token at all. -/
theorem tokenizer_fixtures :
    tokenize [] = [] ∧
    tokenize [120] = [Token.literal [120]] ∧
    tokenize [123] = [] ∧
    tokenize [120, 123] = [Token.literal [120]] ∧
    tokenize [123, 125] = [Token.argument []] ∧
    tokenize [123, 123, 121, 125] = [Token.argument [123, 121]] ∧
    tokenize [123, 123, 123, 123, 120, 121, 122] = [] ∧
    ∀ tail : List Nat, ¬ 125 ∈ tail → tokenize (123 :: tail) = [] := by
  refine ⟨?_, ?_, ?_, ?_, ?_, ?_, ?_, ?_⟩
  · simp [tokenize]
  · simp [tokenize, List.takeWhile, List.dropWhile]
  · simp [tokenize, splitAtClose]
  · simp [tokenize, splitAtClose, List.takeWhile, List.dropWhile]
  · simp [tokenize, splitAtClose]
  · simp [tokenize, splitAtClose]
  · simp [tokenize, splitAtClose]
  · intro tail htail
    have hs := splitAtClose_eq_none htail
    rw [tokenize]
    split
    · split
      · rename_i a r heq
        rw [hs] at heq
        cases heq
      · rfl
    · rename_i hfalse
      exact absurd rfl hfalse

/-- Witness for the general unterminated-fragment statement of C3. -/
theorem tokenizer_fixtures_witness : tokenize (123 :: [97]) = [] :=
  tokenizer_fixtures.2.2.2.2.2.2.2 [97] (by decide)

theorem fitScan_le (tf : Font) (mw hw : Int) (br : LineBreaking) :
    ∀ (rest : List Nat) (i : Nat) (line : Span) (sw : Int) (fw : Bool),
      line.length + line.skip_next_chars ≤ i →
      (fitScan tf mw hw br rest i line sw fw).length +
        (fitScan tf mw hw br rest i line sw fw).skip_next_chars ≤ i + rest.length := by
  intro rest
  induction rest with
  | nil =>
    intro i line sw fw h
    simp [fitScan]
  | cons ch rest ih =>
    intro i line sw fw h
    simp only [fitScan, List.length_cons]
    by_cases hws : is_whitespace ch
    · simp only [hws, if_true, ite_true]
      by_cases hlf : (ch = 10 || ch = 13) = true
      · simp only [hlf, if_true, ite_true]
        simp
      · simp only [hlf, Bool.false_eq_true, if_false, ite_false]
        have hrec := ih (i + 1)
          ⟨i, 1, ⟨sw, if ch = 13 then Int.tdiv tf.line_height 2 else line.advance.y⟩, false⟩
          (sw + tf.text_width ch) true (by simp)
        omega
    · simp only [hws, Bool.false_eq_true, if_false, ite_false]
      by_cases hover : mw < sw + tf.text_width ch
      · simp only [hover, if_true, ite_true]
        omega
      · simp only [hover, if_false, ite_false]
        by_cases hcand :
            (decide (sw + tf.text_width ch + hw ≤ mw) && (breaksWords br || !fw)) = true
        · simp only [hcand, if_true, ite_true]
          have hrec := ih (i + 1)
            ⟨i + 1, 0, ⟨sw + tf.text_width ch, line.advance.y⟩, true⟩
            (sw + tf.text_width ch) fw (by simp)
          omega
        · simp only [hcand, Bool.false_eq_true, if_false, ite_false]
          have hrec := ih (i + 1) line (sw + tf.text_width ch) fw (Nat.le_succ_of_le h)
          omega

/-- C9: the span returned by `Span::fit_horizontally` always satisfies
`length + skip_next_chars ≤ text.length`; consequently the emitted slice
`remaining_text[..span.length]` really has `span.length` bytes and both
slice operations in `layout_text` stay in bounds (no indexing panic). -/
theorem fit_horizontally_span_in_bounds (text : List Nat) (mw : Int) (tf hf : Font)
    (br : LineBreaking) :
    (fit_horizontally text mw tf hf br).length +
      (fit_horizontally text mw tf hf br).skip_next_chars ≤ text.length ∧
    (text.take (fit_horizontally text mw tf hf br).length).length =
      (fit_horizontally text mw tf hf br).length ∧
    (text.drop ((fit_horizontally text mw tf hf br).length +
      (fit_horizontally text mw tf hf br).skip_next_chars)).length =
      text.length - ((fit_horizontally text mw tf hf br).length +
        (fit_horizontally text mw tf hf br).skip_next_chars) := by
  have h := fitScan_le tf mw (hf.text_width 45) br text 0
    ⟨0, 0, ⟨0, tf.line_height⟩, false⟩ 0 false (by simp)
  have hle : (fit_horizontally text mw tf hf br).length +
      (fit_horizontally text mw tf hf br).skip_next_chars ≤ text.length := by
    simpa [fit_horizontally] using h
  refine ⟨hle, ?_, ?_⟩
  · simp only [List.length_take]
    omega
  · simp only [List.length_drop]

theorem fitScan_first_newline (tf : Font) (mw hw : Int) (br : LineBreaking) :
    ∀ (k : Nat) (rest : List Nat) (i : Nat) (line : Span) (sw : Int) (fw : Bool),
      k < rest.length →
      (rest.getD k 0 = 10 ∨ rest.getD k 0 = 13) →
      (∀ j, j < k → rest.getD j 0 ≠ 10 ∧ rest.getD j 0 ≠ 13) →
      (∀ j, j < k → rest.getD j 0 ≠ 32 →
        sw + wsum tf (rest.take j) + tf.text_width (rest.getD j 0) ≤ mw) →
      line.advance.y = tf.line_height →
      fitScan tf mw hw br rest i line sw fw =
        ⟨i + k, 1,
          ⟨sw + wsum tf (rest.take k),
            if rest.getD k 0 = 13 then Int.tdiv tf.line_height 2 else tf.line_height⟩,
          false⟩ := by
  intro k
  induction k with
  | zero =>
    intro rest i line sw fw hk hlfcr _hfirst _hwidth hinv
    cases rest with
    | nil => simp at hk
    | cons ch rest =>
      simp only [List.getD_cons_zero] at hlfcr ⊢
      have hws : is_whitespace ch = true := by
        rcases hlfcr with hc | hc <;> simp [is_whitespace, hc]
      have hlf : (ch = 10 || ch = 13) = true := by
        rcases hlfcr with hc | hc <;> simp [hc]
      simp only [fitScan, hws, if_true, ite_true, hlf]
      rcases hlfcr with hc | hc
      · have hne : ¬ ch = 13 := by omega
        simp [hc, hne, hinv, wsum]
      · simp [hc, wsum]
  | succ k ih =>
    intro rest i line sw fw hk hlfcr hfirst hwidth hinv
    cases rest with
    | nil => simp at hk
    | cons ch rest =>
      have hch := hfirst 0 (Nat.succ_pos k)
      simp only [List.getD_cons_zero] at hch
      simp only [List.getD_cons_succ] at hlfcr ⊢
      simp only [List.length_cons, Nat.succ_lt_succ_iff] at hk
      by_cases hsp : ch = 32
      · have hws : is_whitespace ch = true := by simp [is_whitespace, hsp]
        have hlf : (ch = 10 || ch = 13) = true → False := by
          intro hcontra
          rcases Bool.or_eq_true_iff.mp hcontra with hc | hc
          · exact hch.1 (by simpa using hc)
          · exact hch.2 (by simpa using hc)
        simp only [fitScan, hws, if_true, ite_true]
        rw [if_neg hlf]
        have h13 : ¬ ch = 13 := hch.2
        have hrec := ih rest (i + 1)
          ⟨i, 1, ⟨sw, if ch = 13 then Int.tdiv tf.line_height 2 else line.advance.y⟩, false⟩
          (sw + tf.text_width ch) true hk hlfcr
          (fun j hj => hfirst (j + 1) (Nat.succ_lt_succ hj))
          (fun j hj hns => by
            have := hwidth (j + 1) (Nat.succ_lt_succ hj) (by simpa using hns)
            simp only [List.take_succ_cons, wsum, List.map_cons, List.sum_cons,
              List.getD_cons_succ] at this ⊢
            omega)
          (by simp [h13, hinv])
        rw [hrec]
        have h1 : i + 1 + k = i + (k + 1) := by omega
        have h2 : sw + tf.text_width ch + wsum tf (List.take k rest) =
            sw + wsum tf (List.take (k + 1) (ch :: rest)) := by
          simp only [List.take_succ_cons, wsum, List.map_cons, List.sum_cons]
          ring
        rw [h1, h2]
      · have hws : is_whitespace ch = false := by
          simp [is_whitespace, hsp, hch.1, hch.2]
        have h0 := hwidth 0 (Nat.succ_pos k) (by simpa using hsp)
        simp only [List.take_zero, List.getD_cons_zero] at h0
        have hover : ¬ mw < sw + tf.text_width ch := by
          simp only [wsum, List.map_nil, List.sum_nil] at h0
          omega
        simp only [fitScan, hws, Bool.false_eq_true, if_false, ite_false]
        rw [if_neg hover]
        set line2 : Span :=
          if (decide (sw + tf.text_width ch + hw ≤ mw) && (breaksWords br || !fw)) = true then
            (⟨i + 1, 0, ⟨sw + tf.text_width ch, line.advance.y⟩, true⟩ : Span)
          else line with hline2
        have hinv2 : line2.advance.y = tf.line_height := by
          rw [hline2]
          split
          · simpa using hinv
          · exact hinv
        have hrec := ih rest (i + 1) line2 (sw + tf.text_width ch) fw hk hlfcr
          (fun j hj => hfirst (j + 1) (Nat.succ_lt_succ hj))
          (fun j hj hns => by
            have := hwidth (j + 1) (Nat.succ_lt_succ hj) (by simpa using hns)
            simp only [List.take_succ_cons, wsum, List.map_cons, List.sum_cons,
              List.getD_cons_succ] at this ⊢
            omega)
          hinv2
        rw [hrec]
        have h1 : i + 1 + k = i + (k + 1) := by omega
        have h2 : sw + tf.text_width ch + wsum tf (List.take k rest) =
            sw + wsum tf (List.take (k + 1) (ch :: rest)) := by
          simp only [List.take_succ_cons, wsum, List.map_cons, List.sum_cons]
          ring
        rw [h1, h2]

/-- C4 counterexample: the claim universally forces `length = i` at an LF
offset `i`, but (1) when every glyph is wider than the budget the scan
returns the zero-length forced break before reaching the LF at offset 2,
and (2) an LF at offset 1 that is preceded by another LF is never reached. -/
theorem fit_horizontally_newline_cex :
    (([97, 98, 10] : List Nat).getD 2 0 = 10 ∧
      (fit_horizontally [97, 98, 10] 5 FONT_NORMAL FONT_NORMAL
        LineBreaking.breakAtWhitespace).length ≠ 2) ∧
    (([10, 10] : List Nat).getD 1 0 = 10 ∧
      (fit_horizontally [10, 10] 100 FONT_NORMAL FONT_NORMAL
        LineBreaking.breakAtWhitespace).length ≠ 1) := by
  decide

/-- C4 (amended): if offset `i` holds the FIRST LF or CR of the text and
the width budget is never exhausted before reaching it, then
`Span::fit_horizontally` stops at that byte and returns
`length = i, skip_next_chars = 1`, no hyphen, `advance.x` the accumulated
width of the first `i` characters, and `advance.y` the full line height
for LF and its truncated half for CR. -/
theorem fit_horizontally_newline (text : List Nat) (mw : Int) (tf hf : Font)
    (br : LineBreaking) (i : Nat) (hi : i < text.length)
    (hlfcr : text.getD i 0 = 10 ∨ text.getD i 0 = 13)
    (hfirst : ∀ j, j < i → text.getD j 0 ≠ 10 ∧ text.getD j 0 ≠ 13)
    (hwidth : ∀ j, j < i → text.getD j 0 ≠ 32 →
      wsum tf (text.take j) + tf.text_width (text.getD j 0) ≤ mw) :
    fit_horizontally text mw tf hf br =
      ⟨i, 1,
        ⟨wsum tf (text.take i),
          if text.getD i 0 = 13 then Int.tdiv tf.line_height 2 else tf.line_height⟩,
        false⟩ := by
  have h := fitScan_first_newline tf mw (hf.text_width 45) br i text 0
    ⟨0, 0, ⟨0, tf.line_height⟩, false⟩ 0 false hi hlfcr hfirst
    (fun j hj hns => by
      have := hwidth j hj hns
      omega)
    rfl
  simpa [fit_horizontally] using h

/-- Witness for the amended C4 theorem at `text = "a\n"`. -/
theorem fit_horizontally_newline_witness :
    (1 < ([97, 10] : List Nat).length ∧
      (([97, 10] : List Nat).getD 1 0 = 10 ∨ ([97, 10] : List Nat).getD 1 0 = 13) ∧
      (∀ j, j < 1 → ([97, 10] : List Nat).getD j 0 ≠ 10 ∧ ([97, 10] : List Nat).getD j 0 ≠ 13) ∧
      (∀ j, j < 1 → ([97, 10] : List Nat).getD j 0 ≠ 32 →
        wsum FONT_NORMAL (([97, 10] : List Nat).take j) +
          FONT_NORMAL.text_width (([97, 10] : List Nat).getD j 0) ≤ 100)) ∧
    fit_horizontally [97, 10] 100 FONT_NORMAL FONT_NORMAL LineBreaking.breakAtWhitespace =
      ⟨1, 1,
        ⟨wsum FONT_NORMAL (([97, 10] : List Nat).take 1),
          if ([97, 10] : List Nat).getD 1 0 = 13 then
            Int.tdiv FONT_NORMAL.line_height 2
          else FONT_NORMAL.line_height⟩,
        false⟩ :=
  ⟨⟨by decide, by decide, by decide, by decide⟩,
    fit_horizontally_newline [97, 10] 100 FONT_NORMAL FONT_NORMAL
      LineBreaking.breakAtWhitespace 1 (by decide) (by decide) (by decide) (by decide)⟩

theorem step_cont_no_ellipsis (l : TextLayout) (remaining : List Nat) (cursor : Point)
    (r : List Nat) (c : Point) (ev : List Event)
    (h : layoutTextStep l remaining cursor = StepOut.cont r c ev) :
    ev.any isEllipsisEv = false := by
  unfold layoutTextStep at h
  by_cases hadv :
      0 < (fit_horizontally remaining (l.bounds.x1 - cursor.x) l.text_font l.hyphen_font
        l.line_breaking).advance.y
  · rw [if_pos hadv] at h
    by_cases hov : l.bounds.y1 <
        (⟨cursor.x + (fit_horizontally remaining (l.bounds.x1 - cursor.x) l.text_font
          l.hyphen_font l.line_breaking).advance.x, cursor.y⟩ : Point).y +
        (fit_horizontally remaining (l.bounds.x1 - cursor.x) l.text_font l.hyphen_font
          l.line_breaking).advance.y
    · rw [if_pos hov] at h
      cases h
    · rw [if_neg hov] at h
      cases h
      by_cases hhy : (fit_horizontally remaining (l.bounds.x1 - cursor.x) l.text_font
          l.hyphen_font l.line_breaking).insert_hyphen_before_line_break
      · simp [if_pos hhy, isEllipsisEv]
      · simp [if_neg hhy, isEllipsisEv]
  · rw [if_neg hadv] at h
    cases h
    simp [isEllipsisEv]

/-- C5: the ellipsis sink event fires in an iteration of `layout_text`
exactly when that iteration triggers the terminal vertical overflow
(`OutOfBounds` return), the page-breaking policy is cut-and-ellipsis, the
overflowing span inserted no hyphen, and unconsumed text remains; and over
a whole `layout_text` run, an ellipsis event can only come from a run that
ends out-of-bounds. -/
theorem ellipsis_iff_cut_overflow :
    (∀ (l : TextLayout) (remaining : List Nat) (cursor : Point),
      ((layoutTextStep l remaining cursor).events.any isEllipsisEv = true ↔
        ((layoutTextStep l remaining cursor).isOob = true ∧
          l.page_breaking = PageBreaking.cutAndInsertEllipsis ∧
          (fit_horizontally remaining (l.bounds.x1 - cursor.x) l.text_font l.hyphen_font
            l.line_breaking).insert_hyphen_before_line_break = false ∧
          remaining.drop
            ((fit_horizontally remaining (l.bounds.x1 - cursor.x) l.text_font l.hyphen_font
                l.line_breaking).length +
              (fit_horizontally remaining (l.bounds.x1 - cursor.x) l.text_font l.hyphen_font
                l.line_breaking).skip_next_chars) ≠ []))) ∧
    (∀ (l : TextLayout) (fuel : Nat) (remaining : List Nat) (cursor : Point) (out : LoopOut),
      layoutTextLoop l fuel remaining cursor = some out →
      out.events.any isEllipsisEv = true → out.overflow = true) := by
  constructor
  · intro l remaining cursor
    unfold layoutTextStep
    set span := fit_horizontally remaining (l.bounds.x1 - cursor.x) l.text_font l.hyphen_font
      l.line_breaking with hspan
    by_cases hadv : 0 < span.advance.y
    · rw [if_pos hadv]
      by_cases hov : l.bounds.y1 <
          (⟨cursor.x + span.advance.x, cursor.y⟩ : Point).y + span.advance.y
      · rw [if_pos hov]
        by_cases hrem : remaining.drop (span.length + span.skip_next_chars) = []
        · rw [if_pos hrem]
          by_cases hhy : span.insert_hyphen_before_line_break
          · simp [hhy, hrem, StepOut.events, StepOut.isOob, isEllipsisEv]
          · simp [hhy, hrem, StepOut.events, StepOut.isOob, isEllipsisEv]
        · rw [if_neg hrem]
          cases hpb : l.page_breaking with
          | cut =>
            by_cases hhy : span.insert_hyphen_before_line_break
            · simp [hhy, hrem, StepOut.events, StepOut.isOob, isEllipsisEv]
            · simp [hhy, hrem, StepOut.events, StepOut.isOob, isEllipsisEv]
          | cutAndInsertEllipsis =>
            by_cases hhy : span.insert_hyphen_before_line_break
            · simp [hhy, hrem, StepOut.events, StepOut.isOob, isEllipsisEv]
            · simp [hhy, hrem, StepOut.events, StepOut.isOob, isEllipsisEv]
      · rw [if_neg hov]
        by_cases hhy : span.insert_hyphen_before_line_break
        · simp [hhy, StepOut.events, StepOut.isOob, isEllipsisEv]
        · simp [hhy, StepOut.events, StepOut.isOob, isEllipsisEv]
    · rw [if_neg hadv]
      simp [StepOut.events, StepOut.isOob, isEllipsisEv]
  · intro l fuel
    induction fuel with
    | zero =>
      intro remaining cursor out h
      cases h
    | succ fuel ih =>
      intro remaining cursor out h hany
      rw [layoutTextLoop] at h
      by_cases hrem : remaining = []
      · rw [if_pos hrem] at h
        cases h
        cases hany
      · rw [if_neg hrem] at h
        cases hstep : layoutTextStep l remaining cursor with
        | oob r c ev =>
          rw [hstep] at h
          cases h
          rfl
        | cont r c ev =>
          rw [hstep] at h
          rcases Option.map_eq_some'.mp h with ⟨out', hout', rfl⟩
          have hev := step_cont_no_ellipsis l remaining cursor r c ev hstep
          simp only [List.any_append, hev, Bool.false_or] at hany
          exact ih r c out' hout' hany

/-- Witness for the loop-level statement of C5 on a concrete overflowing run. -/
theorem ellipsis_iff_cut_overflow_witness :
    layoutTextLoop sampleLayout 1 [97, 98, 32, 99, 100, 101, 102] ⟨0, 10⟩ =
      some ⟨[99, 100, 101, 102], ⟨16, 10⟩,
        [Event.text ⟨0, 10⟩ [97, 98], Event.ellipsis ⟨16, 10⟩, Event.out_of_bounds], true⟩ ∧
    (LoopOut.mk [99, 100, 101, 102] ⟨16, 10⟩
        [Event.text ⟨0, 10⟩ [97, 98], Event.ellipsis ⟨16, 10⟩, Event.out_of_bounds]
        true).events.any isEllipsisEv = true ∧
    (LoopOut.mk [99, 100, 101, 102] ⟨16, 10⟩
        [Event.text ⟨0, 10⟩ [97, 98], Event.ellipsis ⟨16, 10⟩, Event.out_of_bounds]
        true).overflow = true :=
  ⟨by decide, by decide,
    ellipsis_iff_cut_overflow.2 sampleLayout 1 [97, 98, 32, 99, 100, 101, 102] ⟨0, 10⟩
      (LoopOut.mk [99, 100, 101, 102] ⟨16, 10⟩
        [Event.text ⟨0, 10⟩ [97, 98], Event.ellipsis ⟨16, 10⟩, Event.out_of_bounds] true)
      (by decide) (by decide)⟩

/-- C6: `layout_op_stream` processes ops in order; `Font`/`Color` only
update the local working style (no event, no cursor movement); a `Text`
op whose `layout_text` overflows aborts the stream at once — the result
does not depend on any later ops — returning `OutOfBounds` with the
cumulative processed count; a fitting `Text` op accumulates its count and
its events and the stream continues. -/
theorem layout_op_stream_first_oob_aborts :
    (∀ (l : TextLayout) (fuel : Nat) (f : Font) (rest : List Op) (cu : Point) (tot : Nat),
      layoutOpStreamGo fuel l (Op.font f :: rest) cu tot =
        layoutOpStreamGo fuel { l with text_font := f } rest cu tot) ∧
    (∀ (l : TextLayout) (fuel : Nat) (c : Nat) (rest : List Op) (cu : Point) (tot : Nat),
      layoutOpStreamGo fuel l (Op.color c :: rest) cu tot =
        layoutOpStreamGo fuel { l with text_color := c } rest cu tot) ∧
    (∀ (l : TextLayout) (fuel : Nat) (t : List Nat) (cu : Point) (tot : Nat)
        (n : Nat) (c' : Point) (ev : List Event),
      layout_text l fuel t cu = some (LayoutFit.outOfBounds n, c', ev) →
      ∀ rest rest' : List Op,
        layoutOpStreamGo fuel l (Op.text t :: rest) cu tot =
          some (LayoutFit.outOfBounds (tot + n), c', ev, l) ∧
        layoutOpStreamGo fuel l (Op.text t :: rest) cu tot =
          layoutOpStreamGo fuel l (Op.text t :: rest') cu tot) ∧
    (∀ (l : TextLayout) (fuel : Nat) (t : List Nat) (cu : Point) (tot : Nat)
        (n : Nat) (c' : Point) (ev : List Event) (rest : List Op),
      layout_text l fuel t cu = some (LayoutFit.fitting n, c', ev) →
      layoutOpStreamGo fuel l (Op.text t :: rest) cu tot =
        (layoutOpStreamGo fuel l rest c' (tot + n)).map fun r =>
          (r.1, r.2.1, ev ++ r.2.2.1, r.2.2.2)) := by
  refine ⟨fun l fuel f rest cu tot => rfl, fun l fuel c rest cu tot => rfl, ?_, ?_⟩
  · intro l fuel t cu tot n c' ev hlt rest rest'
    constructor
    · rw [layoutOpStreamGo, hlt]
    · rw [layoutOpStreamGo, hlt, layoutOpStreamGo, hlt]
  · intro l fuel t cu tot n c' ev rest hlt
    rw [layoutOpStreamGo, hlt]

/-- Witness for the abort equation of C6 on a concrete overflowing text op. -/
theorem layout_op_stream_first_oob_aborts_witness :
    layout_text sampleLayout 1 [97, 98, 32, 99, 100, 101, 102] ⟨0, 10⟩ =
      some (LayoutFit.outOfBounds 3, ⟨16, 10⟩,
        [Event.text ⟨0, 10⟩ [97, 98], Event.ellipsis ⟨16, 10⟩, Event.out_of_bounds]) ∧
    layoutOpStreamGo 1 sampleLayout [Op.text [97, 98, 32, 99, 100, 101, 102]] ⟨0, 10⟩ 0 =
      some (LayoutFit.outOfBounds (0 + 3), ⟨16, 10⟩,
        [Event.text ⟨0, 10⟩ [97, 98], Event.ellipsis ⟨16, 10⟩, Event.out_of_bounds],
        sampleLayout) :=
  ⟨by decide,
    ((layout_op_stream_first_oob_aborts.2.2.1 sampleLayout 1
        [97, 98, 32, 99, 100, 101, 102] ⟨0, 10⟩ 0 3 ⟨16, 10⟩
        [Event.text ⟨0, 10⟩ [97, 98], Event.ellipsis ⟨16, 10⟩, Event.out_of_bounds]
        (by decide)) [] []).1⟩

/-- C7: a layout pass never mutates the stored configuration of the façade:
`paint` hands the façade back unchanged, while the in-stream `Font`
directive of a `\x7bbold\x7d` format demonstrably changes the by-value
working copy (its final line height is the bold one, unlike the line height of the stored
configuration). -/
theorem facade_config_unchanged :
    (∀ (t : TextFacade) (fuel : Nat), (paint t fuel).2 = t) ∧
    ((layout_content boldFacade 1).map fun r => r.2.2.2.text_font.line_height) =
      some FONT_BOLD.line_height ∧
    boldFacade.layout.text_font.line_height ≠ FONT_BOLD.line_height := by
  refine ⟨fun t fuel => rfl, ?_, by decide⟩
  have htok : tokenize [123, 98, 111, 108, 100, 125] =
      [Token.argument [98, 111, 108, 100]] := by
    simp [tokenize, splitAtClose]
  show ((layout_op_stream boldFacade.layout 1
      ((tokenize boldFacade.format).filterMap (resolveToken boldFacade))
      (initial_cursor boldFacade.layout)).map fun r => r.2.2.2.text_font.line_height) =
    some FONT_BOLD.line_height
  rw [show boldFacade.format = [123, 98, 111, 108, 100, 125] from rfl, htok]
  rfl

theorem fitScan_progress (tf : Font) (mw hw : Int) (br : LineBreaking) :
    ∀ (rest : List Nat) (i : Nat) (line : Span) (sw : Int) (fw : Bool),
      (line.length + line.skip_next_chars = 0 → line.advance.y = tf.line_height) →
      0 < i ∨ rest ≠ [] →
      ((fitScan tf mw hw br rest i line sw fw).length +
          (fitScan tf mw hw br rest i line sw fw).skip_next_chars = 0 →
        (fitScan tf mw hw br rest i line sw fw).advance.y = tf.line_height) := by
  intro rest
  induction rest with
  | nil =>
    intro i line sw fw _hinv hpos
    rcases hpos with hi | hne
    · intro hzero
      exfalso
      simp only [fitScan] at hzero
      simp at hzero
      omega
    · exact absurd rfl hne
  | cons ch rest ih =>
    intro i line sw fw hinv _hpos
    simp only [fitScan]
    by_cases hws : is_whitespace ch
    · simp only [hws, if_true, ite_true]
      by_cases hlf : (ch = 10 || ch = 13) = true
      · simp only [hlf, if_true, ite_true]
        intro hzero
        simp at hzero
      · simp only [hlf, Bool.false_eq_true, if_false, ite_false]
        exact ih (i + 1) _ (sw + tf.text_width ch) true
          (by intro hz; simp at hz) (Or.inl (Nat.succ_pos i))
    · simp only [hws, Bool.false_eq_true, if_false, ite_false]
      by_cases hover : mw < sw + tf.text_width ch
      · simp only [hover, if_true, ite_true]
        exact hinv
      · simp only [hover, if_false, ite_false]
        by_cases hcand :
            (decide (sw + tf.text_width ch + hw ≤ mw) && (breaksWords br || !fw)) = true
        · simp only [hcand, if_true, ite_true]
          exact ih (i + 1) _ (sw + tf.text_width ch) fw
            (by intro hz; simp at hz) (Or.inl (Nat.succ_pos i))
        · simp only [hcand, Bool.false_eq_true, if_false, ite_false]
          exact ih (i + 1) line (sw + tf.text_width ch) fw hinv (Or.inl (Nat.succ_pos i))

theorem fit_horizontally_progress (text : List Nat) (mw : Int) (tf hf : Font)
    (br : LineBreaking) (hne : text ≠ [])
    (hzero : (fit_horizontally text mw tf hf br).length +
      (fit_horizontally text mw tf hf br).skip_next_chars = 0) :
    (fit_horizontally text mw tf hf br).advance.y = tf.line_height :=
  fitScan_progress tf mw (hf.text_width 45) br text 0
    ⟨0, 0, ⟨0, tf.line_height⟩, false⟩ 0 false (fun _ => rfl) (Or.inr hne) hzero

theorem step_cont_cases (l : TextLayout) (rem : List Nat) (cu : Point)
    (r : List Nat) (c : Point) (ev : List Event)
    (hne : rem ≠ []) (hlh : 0 < l.text_font.line_height)
    (hstep : layoutTextStep l rem cu = StepOut.cont r c ev) :
    (r.length < rem.length ∧ cu.y ≤ c.y) ∨
    (r = rem ∧ c.y = cu.y + l.text_font.line_height ∧
      cu.y + l.text_font.line_height ≤ l.bounds.y1) := by
  unfold layoutTextStep at hstep
  set span := fit_horizontally rem (l.bounds.x1 - cu.x) l.text_font l.hyphen_font
    l.line_breaking with hspan
  have hle : span.length + span.skip_next_chars ≤ rem.length := by
    have hsl := fitScan_le l.text_font (l.bounds.x1 - cu.x) (l.hyphen_font.text_width 45)
      l.line_breaking rem 0 ⟨0, 0, ⟨0, l.text_font.line_height⟩, false⟩ 0 false (by simp)
    simpa [hspan, fit_horizontally] using hsl
  by_cases hadv : 0 < span.advance.y
  · rw [if_pos hadv] at hstep
    by_cases hov : l.bounds.y1 < (⟨cu.x + span.advance.x, cu.y⟩ : Point).y + span.advance.y
    · rw [if_pos hov] at hstep
      cases hstep
    · rw [if_neg hov] at hstep
      cases hstep
      by_cases hzero : span.length + span.skip_next_chars = 0
      · right
        have hprog : span.advance.y = l.text_font.line_height := by
          rw [hspan]
          exact fit_horizontally_progress rem (l.bounds.x1 - cu.x) l.text_font
            l.hyphen_font l.line_breaking hne (by rw [← hspan]; exact hzero)
        refine ⟨by rw [hzero]; simp, by simp [hprog], ?_⟩
        simp only at hov
        rw [hprog] at hov
        omega
      · left
        constructor
        · simp only [List.length_drop]
          omega
        · simp only
          omega
  · rw [if_neg hadv] at hstep
    cases hstep
    have hzero : ¬ span.length + span.skip_next_chars = 0 := by
      intro hz
      have hprog : span.advance.y = l.text_font.line_height := by
        rw [hspan]
        exact fit_horizontally_progress rem (l.bounds.x1 - cu.x) l.text_font
          l.hyphen_font l.line_breaking hne (by rw [← hspan]; exact hz)
      rw [hprog] at hadv
      exact hadv hlh
    left
    constructor
    · simp only [List.length_drop]
      omega
    · simp only
      omega

theorem layoutTextLoop_total (l : TextLayout) (hlh : 0 < l.text_font.line_height) :
    ∀ (n : Nat) (remaining : List Nat) (cursor : Point),
      remaining.length + (l.bounds.y1 + l.text_font.line_height - cursor.y).toNat < n →
      (layoutTextLoop l n remaining cursor).isSome = true := by
  intro n
  induction n with
  | zero =>
    intro remaining cursor h
    omega
  | succ n ih =>
    intro remaining cursor h
    rw [layoutTextLoop]
    by_cases hrem : remaining = []
    · rw [if_pos hrem]
      rfl
    · rw [if_neg hrem]
      cases hstep : layoutTextStep l remaining cursor with
      | oob r c ev => rfl
      | cont r c ev =>
        have hsub : (layoutTextLoop l n r c).isSome = true := by
          apply ih
          rcases step_cont_cases l remaining cursor r c ev hrem hlh hstep with
            ⟨hlt, hy⟩ | ⟨hr, hcy, hbound⟩
          · omega
          · subst hr
            omega
        cases hloop : layoutTextLoop l n r c with
        | none => rw [hloop] at hsub; cases hsub
        | some out =>
          dsimp only
          rw [hloop]
          rfl

/-- C2 counterexample: an iteration of the `layout_text` loop can return
to the loop head without consuming any remaining text (zero-length forced
break in a box narrower than the glyph), and with a font of line height 0
the loop never reaches a `Fitting` or `OutOfBounds` result at all. -/
theorem layout_text_no_progress_cex :
    layoutTextStep narrowLayout [97] ⟨0, 10⟩ =
      StepOut.cont [97] ⟨0, 20⟩ [Event.text ⟨0, 10⟩ [], Event.line_break ⟨0, 20⟩] ∧
    layoutTextLoop zeroHeightLayout 50 [97] ⟨0, 10⟩ = none := by
  exact ⟨by decide, by decide⟩

/-- C2 (amended): `layout_text` terminates whenever the line height of the
text font is positive: every iteration either returns, strictly shrinks the
remaining text, or strictly raises the cursor by the line height, so the
loop reaches a result within `text.length + vertical-room + 1` iterations.
(The zero-progress forced break the spec flags as an open question makes
the per-iteration text-shrink claim false, and with line height 0 the loop
diverges.) -/
theorem layout_text_terminates (l : TextLayout) (text : List Nat) (cursor : Point)
    (hlh : 0 < l.text_font.line_height) :
    (layoutTextLoop l
      (text.length + (l.bounds.y1 + l.text_font.line_height - cursor.y).toNat + 1)
      text cursor).isSome = true :=
  layoutTextLoop_total l hlh _ text cursor (by omega)

/-- Witness for the amended C2 termination theorem. -/
theorem layout_text_terminates_witness :
    0 < sampleLayout.text_font.line_height ∧
    (layoutTextLoop sampleLayout
      (([97] : List Nat).length +
        (sampleLayout.bounds.y1 + sampleLayout.text_font.line_height -
          (⟨0, 10⟩ : Point).y).toNat + 1)
      [97] ⟨0, 10⟩).isSome = true :=
  ⟨by decide, layout_text_terminates sampleLayout [97] ⟨0, 10⟩ (by decide)⟩

end TrezorText
